import Mathlib

/-!
# Verification of the tauri-ts-generator core against its specification

Shallow embedding of the Rust sources of the `tauri-ts-generator` crate:
the type model (`src/models/rust_type.rs`), the TypeScript type mapper
(`src/generator/type_mapper.rs`, `src/known_types.rs`), the type/serde
parsers (`src/parser/type_parser.rs`, `src/parser/type_extractor.rs`,
`src/parser/command_parser.rs`), the case conversions (`src/utils.rs`),
and the module resolver (`src/resolver.rs`).

Rust `String` is Lean `String`; `HashSet`/`HashMap` are modelled as lists
with membership / first-match association lookup (only `contains`/`get`
observations are used by the embedded code); `PathBuf` is a `String`.
Character classification (`is_uppercase`, `to_ascii_uppercase`) is
modelled on the ASCII range, which is where Rust identifiers live.
-/

namespace TauriGen

/-- `RustType` from `src/models/rust_type.rs`. -/
inductive RustType where
  /-- Primitive types (String, i32, bool, etc.) -/
  | primitive (name : String)
  /-- `Vec<T>` -/
  | vec (inner : RustType)
  /-- `Option<T>` -/
  | option (inner : RustType)
  /-- `Result<T, E>` - only the Ok type is kept -/
  | result (ok : RustType)
  /-- `HashMap<K, V>` -/
  | hashMap (key value : RustType)
  /-- Tuple types -/
  | tuple (types : List RustType)
  /-- Reference to a custom type (struct or enum) -/
  | custom (name : String)
  /-- Generic type parameter (T, U, K, V, etc.) -/
  | generic (name : String)
  /-- Unit type `()` -/
  | unit
  /-- Unknown type (fallback) -/
  | unknown (desc : String)
deriving Repr, BEq, Inhabited

/-! ## `src/known_types.rs` -/

def PRIMITIVE_STRING_TYPES : List String := ["String", "str", "char"]

def SIGNED_INTEGER_TYPES : List String := ["i8", "i16", "i32", "i64", "i128", "isize"]

def UNSIGNED_INTEGER_TYPES : List String := ["u8", "u16", "u32", "u64", "u128", "usize"]

def FLOAT_TYPES : List String := ["f32", "f64"]

def BOOL_TYPE : String := "bool"

def EXTERNAL_STRING_TYPES : List String :=
  ["DateTime", "NaiveDateTime", "NaiveDate", "NaiveTime",
   "OffsetDateTime", "PrimitiveDateTime", "Date", "Time",
   "Uuid", "Decimal", "BigDecimal", "PathBuf", "Path",
   "IpAddr", "Ipv4Addr", "Ipv6Addr", "Url"]

def EXTERNAL_NUMBER_TYPES : List String := ["Duration"]

def JSON_VALUE_TYPE : String := "Value"

def BYTES_TYPE : String := "Bytes"

/-- `known_types::primitive_to_typescript`. -/
def knownPrimitiveToTypescript (name : String) : Option String :=
  if PRIMITIVE_STRING_TYPES.contains name then some "string"
  else if SIGNED_INTEGER_TYPES.contains name || UNSIGNED_INTEGER_TYPES.contains name
      || FLOAT_TYPES.contains name then some "number"
  else if name = BOOL_TYPE then some "boolean"
  else if EXTERNAL_STRING_TYPES.contains name then some "string"
  else if EXTERNAL_NUMBER_TYPES.contains name then some "number"
  else if name = JSON_VALUE_TYPE then some "unknown"
  else if name = BYTES_TYPE then some "number[]"
  else none

/-! ## `src/generator/mod.rs`: the generation context -/

/-- `NamingConfig` from `src/config.rs`; the four fields are the
type-name prefix/suffix and function-name prefix/suffix knobs. -/
structure NamingConfig where
  typeNamePre : String := ""
  typeNameSuf : String := ""
  fnNamePre : String := ""
  fnNameSuf : String := ""
deriving Repr, DecidableEq, Inhabited

/-- `GeneratorContext` from `src/generator/mod.rs`; `custom_types` is the
set of registered exported type names. -/
structure GeneratorContext where
  naming : NamingConfig
  custom_types : List String
deriving Repr, DecidableEq, Inhabited

def GeneratorContext.is_custom_type (ctx : GeneratorContext) (name : String) : Bool :=
  ctx.custom_types.contains name

def GeneratorContext.format_type_name (ctx : GeneratorContext) (name : String) : String :=
  ctx.naming.typeNamePre ++ name ++ ctx.naming.typeNameSuf

def defaultCtx : GeneratorContext := { naming := {}, custom_types := [] }

/-! ## `src/generator/type_mapper.rs` -/

/-- `type_mapper::primitive_to_typescript` (the warning side channel is
dropped; only the returned string is modelled). -/
def primitiveToTypescript (name : String) : String :=
  match knownPrimitiveToTypescript name with
  | some ts => ts
  | none => "unknown"

/-- `type_mapper::rust_to_typescript`. -/
def rust_to_typescript (rust_type : RustType) (ctx : GeneratorContext) : String :=
  match rust_type with
  | .primitive name => primitiveToTypescript name
  | .vec inner =>
    let inner_ts := rust_to_typescript inner ctx
    if inner_ts.contains '|' then "(" ++ inner_ts ++ ")[]"
    else inner_ts ++ "[]"
  | .option inner =>
    let inner_ts := rust_to_typescript inner ctx
    inner_ts ++ " | null"
  | .result ok => rust_to_typescript ok ctx
  | .hashMap key value =>
    let key_ts := rust_to_typescript key ctx
    let value_ts := rust_to_typescript value ctx
    let use_param_key : Bool :=
      match key with
      | .primitive p => if p = "bool" then false else true
      | .custom _ => true
      | .generic _ => true
      | _ => false
    if use_param_key then "Record<" ++ key_ts ++ ", " ++ value_ts ++ ">"
    else "Record<string, " ++ value_ts ++ ">"
  | .tuple types =>
    if types.isEmpty then "void"
    else
      let type_strs := types.attach.map (fun t => rust_to_typescript t.1 ctx)
      "[" ++ String.intercalate ", " type_strs ++ "]"
  | .custom name =>
    if ctx.is_custom_type name then ctx.format_type_name name else name
  | .generic name => name
  | .unit => "void"
  | .unknown _ => "unknown"
termination_by sizeOf rust_type
decreasing_by
  all_goals simp_wf
  all_goals first
    | omega
    | (have h := List.sizeOf_lt_of_mem t.2; omega)

/-! ## Spec-side formulations for the map-key claims -/

/-- The map-key widening rule exactly as the spec words it: the key is
widened to string iff it is the boolean primitive or one of the
list/optional/map/tuple composites. -/
def widensKeyPerClaim : RustType → Bool
  | .primitive p => p == "bool"
  | .vec _ => true
  | .option _ => true
  | .hashMap _ _ => true
  | .tuple _ => true
  | _ => false

/-- The record key the spec's rule predicts for a map with key `k`. -/
def mapKeyPerClaim (k : RustType) (ctx : GeneratorContext) : String :=
  if widensKeyPerClaim k then "string" else rust_to_typescript k ctx

/-- Amended key rule: the key is preserved exactly when it is a
non-boolean primitive, a named (custom) type, or a generic parameter;
every other key — including fallible, unit and unrecognized types, which
the spec's enumeration omits — is widened to string. -/
def mapKeyPreservedAmended : RustType → Bool
  | .primitive p => !(p == "bool")
  | .custom _ => true
  | .generic _ => true
  | _ => false

/-! ## `syn::Type`, restricted to the shapes `src/parser/type_extractor.rs` inspects -/

mutual
/-- A `syn::Type`: path, tuple, reference, slice, or anything else
(carrying only its debug description, which is all the extractor keeps). -/
inductive STy where
  | pathTy (segments : List PathSeg)
  | tupleTy (elems : List STy)
  | refTy (elem : STy)
  | sliceTy (elem : STy)
  | otherTy (desc : String)

/-- A path segment: identifier plus its generic arguments. -/
inductive PathSeg where
  | mk (ident : String) (args : PathArgs)

/-- `syn::PathArguments`. -/
inductive PathArgs where
  | noArgs
  | angleBracketed (args : List GenArg)
  | parenthesized

/-- `syn::GenericArgument`: a type argument, or anything else
(lifetime, const, binding…), which the extractor never reads. -/
inductive GenArg where
  | typeArg (ty : STy)
  | otherArg
end

def PathSeg.ident : PathSeg → String
  | .mk i _ => i

def PathSeg.args : PathSeg → PathArgs
  | .mk _ a => a

/-- `type_extractor::extract_single_generic`: the first angle-bracketed
argument, if it is a type. -/
def extract_single_generic (args : PathArgs) : Option STy :=
  match args with
  | .angleBracketed l =>
    match l.head? with
    | some (.typeArg ty) => some ty
    | _ => none
  | _ => none

/-- `type_extractor::extract_two_generics`: the first two
angle-bracketed arguments, if both are types. -/
def extract_two_generics (args : PathArgs) : Option (STy × STy) :=
  match args with
  | .angleBracketed (.typeArg a :: .typeArg b :: _) => some (a, b)
  | _ => none

theorem sizeOf_extract_single {args : PathArgs} {t : STy}
    (h : extract_single_generic args = some t) : sizeOf t < sizeOf args := by
  match args with
  | .noArgs => simp [extract_single_generic] at h
  | .parenthesized => simp [extract_single_generic] at h
  | .angleBracketed [] => simp [extract_single_generic] at h
  | .angleBracketed (.otherArg :: _) => simp [extract_single_generic] at h
  | .angleBracketed (.typeArg x :: rest) =>
    simp [extract_single_generic] at h
    subst h
    simp
    omega

theorem sizeOf_extract_two {args : PathArgs} {a b : STy}
    (h : extract_two_generics args = some (a, b)) :
    sizeOf a < sizeOf args ∧ sizeOf b < sizeOf args := by
  match args with
  | .noArgs => simp [extract_two_generics] at h
  | .parenthesized => simp [extract_two_generics] at h
  | .angleBracketed [] => simp [extract_two_generics] at h
  | .angleBracketed (.otherArg :: _) => simp [extract_two_generics] at h
  | .angleBracketed [.typeArg _] => simp [extract_two_generics] at h
  | .angleBracketed (.typeArg _ :: .otherArg :: _) => simp [extract_two_generics] at h
  | .angleBracketed (.typeArg x :: .typeArg y :: rest) =>
    simp [extract_two_generics] at h
    obtain ⟨rfl, rfl⟩ := h
    constructor <;> (simp; omega)

theorem sizeOf_args_lt (seg : PathSeg) : sizeOf (PathSeg.args seg) < sizeOf seg := by
  cases seg
  simp [PathSeg.args]

theorem mem_of_getLast?_eq {l : List PathSeg} {seg : PathSeg}
    (h : l.getLast? = some seg) : seg ∈ l := by
  obtain ⟨hne, heq⟩ := List.mem_getLast?_eq_getLast (l := l) (x := seg) (by simp [h])
  exact heq ▸ List.getLast_mem hne

/-- The non-recursive arms of the extractor's name `match`: primitives,
well-known external string-serialized types, `Duration`, `Value` and
`Bytes`.  Factored out of `parse_type_with_context` because these arms
neither recurse nor consult the segment's generic arguments; the arms
and their order are those of the source `match`. -/
def scalarNameTable (name : String) : Option RustType :=
  if name = "String" ∨ name = "str" ∨ name = "char" then some (.primitive "String")
  else if name ∈ (["i8", "i16", "i32", "i64", "i128", "isize"] : List String) then
    some (.primitive name)
  else if name ∈ (["u8", "u16", "u32", "u64", "u128", "usize"] : List String) then
    some (.primitive name)
  else if name = "f32" ∨ name = "f64" then some (.primitive name)
  else if name = "bool" then some (.primitive "bool")
  else if name ∈ (["DateTime", "NaiveDateTime", "NaiveDate", "NaiveTime",
      "OffsetDateTime", "PrimitiveDateTime", "Date", "Time",
      "Uuid", "Decimal", "BigDecimal", "PathBuf", "Path", "Url",
      "IpAddr", "Ipv4Addr", "Ipv6Addr"] : List String) then some (.primitive name)
  else if name = "Duration" then some (.primitive "Duration")
  else if name = "Value" then some (.primitive "Value")
  else if name = "Bytes" then some (.primitive "Bytes")
  else none

/-- `type_extractor::parse_type_with_context`.  The generic-parameter
set is a list observed only through `contains`.  The branch structure —
the generic-context test first, then the fixed name table keyed on the
last path segment, then the catch-all `Custom` — mirrors the source
`match` arm for arm (with the scalar arms in `scalarNameTable`). -/
def parse_type_with_context (ty : STy) (generic_params : List String) : RustType :=
  match ty with
  | .pathTy segments =>
    match hl : segments.getLast? with
    | some seg =>
      let name := seg.ident
      if generic_params.contains name then .generic name
      else match scalarNameTable name with
      | some scalar => scalar
      | none =>
      if name = "Vec" then
        match hv : extract_single_generic (PathSeg.args seg) with
        | some inner => .vec (parse_type_with_context inner generic_params)
        | none => .unknown "Vec<?>"
      else if name = "Option" then
        match ho : extract_single_generic (PathSeg.args seg) with
        | some inner => .option (parse_type_with_context inner generic_params)
        | none => .unknown "Option<?>"
      else if name = "Result" then
        match hr : extract_single_generic (PathSeg.args seg) with
        | some inner => .result (parse_type_with_context inner generic_params)
        | none => .unknown "Result<?>"
      else if name = "HashMap" ∨ name = "BTreeMap" then
        match hm : extract_two_generics (PathSeg.args seg) with
        | some (key, value) =>
          .hashMap (parse_type_with_context key generic_params)
            (parse_type_with_context value generic_params)
        | none => .unknown "HashMap<?, ?>"
      else .custom name
    | none => .unknown "unknown path"
  | .tupleTy elems =>
    if elems.isEmpty then .unit
    else .tuple (elems.attach.map fun e => parse_type_with_context e.1 generic_params)
  | .refTy elem => parse_type_with_context elem generic_params
  | .sliceTy elem => .vec (parse_type_with_context elem generic_params)
  | .otherTy desc => .unknown desc
termination_by sizeOf ty
decreasing_by
  all_goals simp_wf
  all_goals first
    | omega
    | (have h1 := List.sizeOf_lt_of_mem e.2; omega)
    | (have h1 := List.sizeOf_lt_of_mem (mem_of_getLast?_eq hl)
       have h2 := sizeOf_args_lt seg
       first
         | (have h3 := sizeOf_extract_single hv; omega)
         | (have h3 := sizeOf_extract_single ho; omega)
         | (have h3 := sizeOf_extract_single hr; omega)
         | (have h3 := sizeOf_extract_two hm; omega))

/-- `type_extractor::parse_type`: parsing with no generic context. -/
def parse_type (ty : STy) : RustType := parse_type_with_context ty []

/-! ## `src/parser/command_parser.rs`: special types and return types -/

/-- `command_parser::is_tauri_special_type`: framework-injected handle
types, recognized by the last path segment. -/
def is_tauri_special_type : STy → Bool
  | .pathTy segments =>
    match segments.getLast? with
    | some seg =>
      seg.ident ∈ (["State", "Window", "AppHandle", "Webview", "WebviewWindow"] : List String)
    | none => false
  | _ => false

/-- `syn::ReturnType`: no declared return, or a declared type. -/
inductive SReturnType where
  | default
  | typed (ty : STy)

/-- `command_parser::parse_return_type`. -/
def parse_return_type : SReturnType → Option RustType
  | .default => none
  | .typed ty =>
    match parse_type ty with
    | .unit => none
    | rust_type => some rust_type

/-! ## Spec-side formulations for the extractor claims -/

/-- Whether `GenericParam n` occurs anywhere in a parsed type tree. -/
def mentionsGenericParam (n : String) : RustType → Bool
  | .primitive _ => false
  | .vec t => mentionsGenericParam n t
  | .option t => mentionsGenericParam n t
  | .result t => mentionsGenericParam n t
  | .hashMap k v => mentionsGenericParam n k || mentionsGenericParam n v
  | .tuple ts => ts.attach.any fun t => mentionsGenericParam n t.1
  | .custom _ => false
  | .generic m => m == n
  | .unit => false
  | .unknown _ => false
termination_by t => sizeOf t
decreasing_by
  all_goals simp_wf
  all_goals first
    | omega
    | (have h1 := List.sizeOf_lt_of_mem t.2; omega)

/-- The names the extractor's fixed table recognizes (everything that is
classified as something other than a bare `Custom` reference). -/
def recognizedTypeName (name : String) : Bool :=
  name ∈ (["String", "str", "char",
    "i8", "i16", "i32", "i64", "i128", "isize",
    "u8", "u16", "u32", "u64", "u128", "usize",
    "f32", "f64", "bool",
    "DateTime", "NaiveDateTime", "NaiveDate", "NaiveTime",
    "OffsetDateTime", "PrimitiveDateTime", "Date", "Time",
    "Uuid", "Decimal", "BigDecimal", "PathBuf", "Path", "Url",
    "IpAddr", "Ipv4Addr", "Ipv6Addr",
    "Duration", "Value", "Bytes",
    "Vec", "Option", "Result", "HashMap", "BTreeMap"] : List String)

/-- The return-type rule exactly as the spec words it: the recorded
return type is absent iff no return is declared or the declared return
is the empty tuple type itself. -/
def returnAbsentPerClaim : SReturnType → Prop
  | .default => True
  | .typed (.tupleTy []) => True
  | .typed _ => False

/-- The declared return type is the empty tuple, possibly behind
references (which the extractor unwraps transparently). -/
def isUnitBehindRefs : STy → Bool
  | .tupleTy [] => true
  | .refTy t => isUnitBehindRefs t
  | _ => false

/-! ## `src/utils.rs`: case conversions

Rust's `to_ascii_uppercase`/`to_ascii_lowercase` are `Char.toUpper`/
`Char.toLower` (both act on the ASCII range only); `is_uppercase` is
modelled as `Char.isUpper`, which agrees on ASCII identifiers. -/

/-- `utils::to_camel_case`: one pass with `capitalize_next` and
`first_char` state. -/
def to_camel_case (s : String) : String :=
  (s.toList.foldl
    (fun (acc : String × Bool × Bool) c =>
      let (result, capitalize_next, first_char) := acc
      if c = '_' then (result, true, first_char)
      else if capitalize_next then (result.push c.toUpper, false, first_char)
      else if first_char then (result.push c.toLower, false, false)
      else (result.push c, capitalize_next, first_char))
    ("", false, true)).1

/-- `utils::to_snake_case`: underscore before every uppercase letter not
at position zero, everything lowercased. -/
def to_snake_case (s : String) : String :=
  s.toList.enum.foldl
    (fun result ic =>
      let result := if ic.2.isUpper ∧ ic.1 > 0 then result.push '_' else result
      result.push ic.2.toLower)
    ""

def to_screaming_snake_case (s : String) : String := (to_snake_case s).toUpper

def to_kebab_case (s : String) : String :=
  (to_snake_case s).map fun c => if c = '_' then '-' else c

def to_screaming_kebab_case (s : String) : String := (to_kebab_case s).toUpper

/-! ## Attributes and items, as the type parser observes them -/

/-- A `syn::Meta` appearing among the arguments of a `#[serde(...)]`
attribute: a name-value pair with a string-literal value, a name-value
pair with any other value shape, a bare path, or a nested list. -/
inductive SMeta where
  | nameValueStr (path : String) (value : String)
  | nameValueOther (path : String)
  | pathMeta (path : String)
  | listMeta (path : String)
deriving Repr, BEq, DecidableEq

/-- A `syn::Attribute`, pre-sorted by the only two list-attribute paths
the parser inspects.  `derive` carries its arguments parsed as a
comma-separated list of paths (each a list of segments); `serde`
carries its arguments parsed as a comma-separated list of metas; in
both, `none` models a token stream the secondary parse rejects.
`pathAttr` is a bare-path attribute such as `#[serde]` or
`#[tauri::command]`; `nameValueAttr` a name-value attribute. -/
inductive Attr where
  | derive (args : Option (List (List String)))
  | serde (args : Option (List SMeta))
  | pathAttr (segments : List String)
  | nameValueAttr (path : String)
  | otherAttr
deriving Repr, BEq, DecidableEq

/-- `attr.path().is_ident("serde")`. -/
def attrPathIsSerde : Attr → Bool
  | .derive _ => false
  | .serde _ => true
  | .pathAttr segments => segments = ["serde"]
  | .nameValueAttr path => path = "serde"
  | .otherAttr => false

/-- A struct or variant field: optional identifier (absent for tuple
fields), attributes, declared type. -/
structure SField where
  ident : Option String
  attrs : List Attr
  ty : STy

/-- `syn::Fields`. -/
inductive SFields where
  | named (fields : List SField)
  | unnamed (fields : List SField)
  | unitFields

/-- An enum variant: identifier, attributes, fields. -/
structure SVariant where
  ident : String
  attrs : List Attr
  fields : SFields

/-- A generic parameter: a type parameter with its name, or a
lifetime/const parameter (which the parser filters out). -/
inductive GParam where
  | typeParam (name : String)
  | otherParam
deriving Repr, BEq, DecidableEq

/-- A `syn::Item`, restricted to the shapes the type parser inspects.
`implItem` carries the trait path (if a trait impl) and the self type's
path segments (if the self type is a path type); `constItem` carries
the items found as statements of a block initializer (`none` when the
initializer is not a block); everything else is `otherItem`. -/
inductive SItem where
  | structItem (ident : String) (attrs : List Attr) (generics : List GParam) (fields : SFields)
  | enumItem (ident : String) (attrs : List Attr) (generics : List GParam)
      (variants : List SVariant)
  | modItem (content : Option (List SItem))
  | implItem (traitPath : Option (List String)) (selfTyPath : Option (List String))
  | constItem (blockItems : Option (List SItem))
  | otherItem

/-! ## `src/parser/type_parser.rs` -/

/-- `type_parser::is_serializable`: a derive attribute names
`Serialize` or `Deserialize`, as a single-segment identifier or by the
last segment of a qualified path. -/
def is_serializable (attrs : List Attr) : Bool :=
  attrs.any fun attr =>
    match attr with
    | .derive (some paths) =>
      paths.any fun path =>
        (match path with
         | [single] => single = "Serialize" || single = "Deserialize"
         | _ => false)
        || (match path.getLast? with
            | some last => last = "Serialize" || last = "Deserialize"
            | none => false)
    | _ => false

/-- `type_parser::has_serde_field_attrs`: only named fields are
examined. -/
def has_serde_field_attrs (fields : SFields) : Bool :=
  match fields with
  | .named fs => fs.any fun field => field.attrs.any attrPathIsSerde
  | _ => false

/-- `type_parser::has_serde_variant_attrs`: variant attributes, and the
attributes of named and unnamed variant fields. -/
def has_serde_variant_attrs (variants : List SVariant) : Bool :=
  variants.any fun variant =>
    variant.attrs.any attrPathIsSerde ||
    (match variant.fields with
     | .named fs => fs.any fun field => field.attrs.any attrPathIsSerde
     | .unnamed fs => fs.any fun field => field.attrs.any attrPathIsSerde
     | .unitFields => false)

/-- `type_parser::check_serde_impl`.  The `HashSet` accumulator is a
list observed only through `contains`. -/
def check_serde_impl (traitPath : Option (List String)) (selfTyPath : Option (List String))
    (result : List String) : List String :=
  match traitPath with
  | none => result
  | some trait_segments =>
    let trait_name := (trait_segments.getLast?).getD ""
    if trait_name = "Serialize" ∨ trait_name = "Deserialize" then
      match selfTyPath with
      | some ty_segments =>
        match ty_segments.getLast? with
        | some segment => segment :: result
        | none => result
      | none => result
    else result

/-- `type_parser::collect_serializable_types_recursive`: impl blocks,
impl blocks at the top of `const _ : () = { ... }` initializers, and
recursion into modules. -/
def collect_serializable_types_recursive : List SItem → List String → List String
  | [], result => result
  | .implItem traitPath selfTyPath :: rest, result =>
    collect_serializable_types_recursive rest (check_serde_impl traitPath selfTyPath result)
  | .modItem (some mod_items) :: rest, result =>
    collect_serializable_types_recursive rest
      (collect_serializable_types_recursive mod_items result)
  | .constItem (some stmts) :: rest, result =>
    collect_serializable_types_recursive rest
      (stmts.foldl
        (fun acc stmt =>
          match stmt with
          | .implItem traitPath selfTyPath => check_serde_impl traitPath selfTyPath acc
          | _ => acc)
        result)
  | _ :: rest, result => collect_serializable_types_recursive rest result
termination_by items _ => sizeOf items
decreasing_by
  all_goals simp_wf
  all_goals omega

/-- `type_parser::collect_serializable_types`. -/
def collect_serializable_types (items : List SItem) : List String :=
  collect_serializable_types_recursive items []

/-- `type_parser::get_serde_rename`, inner loop over one serde
attribute's metas: the first `rename = "..."` wins. -/
def get_serde_rename_metas : List SMeta → Option String
  | [] => none
  | .nameValueStr path value :: rest =>
    if path = "rename" then some value else get_serde_rename_metas rest
  | _ :: rest => get_serde_rename_metas rest

/-- `type_parser::get_serde_rename`: scan the attributes for a
`#[serde(rename = "...")]` value. -/
def get_serde_rename : List Attr → Option String
  | [] => none
  | .serde (some metas) :: rest =>
    (match get_serde_rename_metas metas with
     | some value => some value
     | none => get_serde_rename rest)
  | _ :: rest => get_serde_rename rest

/-- `SerdeContainerAttrs` from `src/parser/type_parser.rs`. -/
structure SerdeContainerAttrs where
  rename_all : Option String := none
  tag : Option String := none
  content : Option String := none
  untagged : Bool := false
deriving Repr, BEq, DecidableEq

/-- One meta of a container `#[serde(...)]` attribute, applied to the
accumulating result (later occurrences overwrite earlier ones). -/
def applyContainerMeta (result : SerdeContainerAttrs) (meta : SMeta) : SerdeContainerAttrs :=
  match meta with
  | .nameValueStr path value =>
    if path = "rename_all" then { result with rename_all := some value }
    else if path = "tag" then { result with tag := some value }
    else if path = "content" then { result with content := some value }
    else result
  | .pathMeta path =>
    if path = "untagged" then { result with untagged := true } else result
  | _ => result

/-- `type_parser::parse_serde_container_attrs`. -/
def parse_serde_container_attrs (attrs : List Attr) : SerdeContainerAttrs :=
  attrs.foldl
    (fun result attr =>
      match attr with
      | .serde (some metas) => metas.foldl applyContainerMeta result
      | _ => result)
    {}

/-- `type_parser::apply_rename_all`: the seven conversions; an unknown
rule and `PascalCase` leave the name unchanged. -/
def apply_rename_all (name : String) (rename_all : Option String) : Option String :=
  match rename_all with
  | none => none
  | some rule =>
    some (if rule = "lowercase" then name.toLower
      else if rule = "UPPERCASE" then name.toUpper
      else if rule = "camelCase" then to_camel_case name
      else if rule = "snake_case" then to_snake_case name
      else if rule = "SCREAMING_SNAKE_CASE" then to_screaming_snake_case name
      else if rule = "kebab-case" then to_kebab_case name
      else if rule = "SCREAMING-KEBAB-CASE" then to_screaming_kebab_case name
      else if rule = "PascalCase" then name
      else name)

/-! ## Parsed-record models from `src/models` -/

structure StructField where
  name : String
  ty : RustType
deriving Repr, BEq

structure RustStruct where
  name : String
  generics : List String
  fields : List StructField
  source_file : String
deriving Repr, BEq

inductive VariantData where
  | unitData
  | tupleData (types : List RustType)
  | structData (fields : List StructField)
deriving Repr, BEq

structure EnumVariant where
  name : String
  data : VariantData
deriving Repr, BEq

inductive EnumRepresentation where
  | external
  | internal (tag : String)
  | adjacent (tag content : String)
  | untagged
deriving Repr, BEq, DecidableEq

structure RustEnum where
  name : String
  generics : List String
  variants : List EnumVariant
  source_file : String
  representation : EnumRepresentation
deriving Repr, BEq

/-- Extraction of type-parameter names from a generics list (the
`filter_map` over `syn::GenericParam` in `parse_struct`/`parse_enum`). -/
def genericNames (params : List GParam) : List String :=
  params.filterMap fun p =>
    match p with
    | .typeParam name => some name
    | .otherParam => none

/-- `type_parser::parse_struct`. -/
def parse_struct (ident : String) (attrs : List Attr) (generics : List GParam)
    (fields : SFields) (source_file : String) : Option RustStruct :=
  let gens := genericNames generics
  let flds :=
    match fields with
    | .named fs =>
      fs.filterMap fun field =>
        field.ident.map fun field_name =>
          { name := (get_serde_rename field.attrs).getD field_name,
            ty := parse_type_with_context field.ty gens : StructField }
    | .unnamed fs =>
      fs.enum.map fun ifld =>
        { name := "field" ++ toString ifld.1,
          ty := parse_type_with_context ifld.2.ty gens : StructField }
    | .unitFields => []
  some { name := ident, generics := gens, fields := flds, source_file }

/-- `type_parser::parse_enum`. -/
def parse_enum (ident : String) (attrs : List Attr) (generics : List GParam)
    (variants : List SVariant) (source_file : String) : Option RustEnum :=
  let gens := genericNames generics
  let container_attrs := parse_serde_container_attrs attrs
  let representation :=
    if container_attrs.untagged then EnumRepresentation.untagged
    else
      match container_attrs.tag with
      | some tag =>
        match container_attrs.content with
        | some content => EnumRepresentation.adjacent tag content
        | none => EnumRepresentation.internal tag
      | none => EnumRepresentation.external
  let vars := variants.map fun variant =>
    let variant_name := variant.ident
    let final_name :=
      ((get_serde_rename variant.attrs).orElse
        (fun _ => apply_rename_all variant_name container_attrs.rename_all)).getD variant_name
    let data :=
      match variant.fields with
      | .unitFields => VariantData.unitData
      | .unnamed fs =>
        VariantData.tupleData (fs.map fun f => parse_type_with_context f.ty gens)
      | .named fs =>
        VariantData.structData (fs.filterMap fun field =>
          field.ident.map fun field_name =>
            { name := (get_serde_rename field.attrs).getD field_name,
              ty := parse_type_with_context field.ty gens : StructField })
    { name := final_name, data : EnumVariant }
  some { name := ident, generics := gens, variants := vars, source_file, representation }

/-- `type_parser::parse_items`, with the two output vectors threaded as
accumulators (pushes become appends). -/
def parse_items : List SItem → String → Bool → List String →
    List RustStruct → List RustEnum → List RustStruct × List RustEnum
  | [], _, _, _, structs, enums => (structs, enums)
  | .structItem ident attrs generics fields :: rest,
      source_file, expanded, serializable_types, structs, enums =>
    let should_include :=
      if expanded then
        serializable_types.contains ident || is_serializable attrs
          || has_serde_field_attrs fields
      else is_serializable attrs
    let structs :=
      if should_include then
        match parse_struct ident attrs generics fields source_file with
        | some s => structs ++ [s]
        | none => structs
      else structs
    parse_items rest source_file expanded serializable_types structs enums
  | .enumItem ident attrs generics variants :: rest,
      source_file, expanded, serializable_types, structs, enums =>
    let should_include :=
      if expanded then
        serializable_types.contains ident || is_serializable attrs
          || has_serde_variant_attrs variants
      else is_serializable attrs
    let enums :=
      if should_include then
        match parse_enum ident attrs generics variants source_file with
        | some e => enums ++ [e]
        | none => enums
      else enums
    parse_items rest source_file expanded serializable_types structs enums
  | .modItem (some mod_items) :: rest,
      source_file, expanded, serializable_types, structs, enums =>
    let acc := parse_items mod_items source_file expanded serializable_types structs enums
    parse_items rest source_file expanded serializable_types acc.1 acc.2
  | _ :: rest, source_file, expanded, serializable_types, structs, enums =>
    parse_items rest source_file expanded serializable_types structs enums
termination_by items _ _ _ _ _ => sizeOf items
decreasing_by
  all_goals simp_wf
  all_goals omega

/-- `type_parser::parse_types_internal`, from the already-parsed item
list: collect the impl-backed names (expanded mode only), then walk the
items. -/
def parse_types_items (items : List SItem) (source_file : String) (expanded : Bool) :
    List RustStruct × List RustEnum :=
  let serializable_types := if expanded then collect_serializable_types items else []
  parse_items items source_file expanded serializable_types [] []

/-! ## Spec-side formulations for the serialization-extractor claims -/

/-- The claim's condition (b) verbatim: some field or variant of the
declaration carries a serde attribute directly — for structs this reads
over named and unnamed fields alike. -/
def anyFieldOrVariantSerdePerClaim : SItem → Bool
  | .structItem _ _ _ fields =>
    (match fields with
     | .named fs => fs.any fun field => field.attrs.any attrPathIsSerde
     | .unnamed fs => fs.any fun field => field.attrs.any attrPathIsSerde
     | .unitFields => false)
  | .enumItem _ _ _ variants => has_serde_variant_attrs variants
  | _ => false

/-- A derive attribute naming the serialization traits, as the spec
words it (by short name or by the final segment of a qualified path). -/
def carriesSerdeDerivePerSpec (attrs : List Attr) : Prop :=
  ∃ args, Attr.derive (some args) ∈ attrs ∧
    ∃ path ∈ args, path.getLast? = some "Serialize" ∨ path.getLast? = some "Deserialize"

/-! ## `src/resolver.rs`: the module resolver

`PathBuf` is a `String`; the two `HashMap`s and the `HashSet` are
association lists observed through first-match lookup (each key occurs
at most once in the states the resolver builds). -/

/-- `resolver::ResolutionResult`. -/
inductive ResolutionResult where
  | found (file : String)
  | notFound
  | ambiguous (files : List String)
deriving Repr, BEq, DecidableEq

/-- `resolver::TypeKind`. -/
inductive TypeKind where
  | structKind
  | enumKind
deriving Repr, BEq, DecidableEq

/-- `resolver::ImportedType`. -/
structure ImportedType where
  path : List String
deriving Repr, BEq, DecidableEq

/-- `resolver::FileScope`. -/
structure FileScope where
  module_path : List String := []
  local_types : List (String × TypeKind) := []
  imports : List (String × ImportedType) := []
  wildcard_imports : List (List String) := []
deriving Repr, BEq, DecidableEq

/-- `resolver::ModuleResolver`. -/
structure ModuleResolver where
  files : List (String × FileScope) := []
  type_definitions : List (String × List String) := []
  module_to_file : List (List String × String) := []
deriving Repr, BEq, DecidableEq

/-- `HashMap::get`, as first-match association-list lookup. -/
def lookupAssoc {κ ν : Type} [DecidableEq κ] (m : List (κ × ν)) (k : κ) : Option ν :=
  (m.find? fun e => e.1 = k).map (·.2)

/-- `HashMap::contains_key`. -/
def containsKey {κ ν : Type} [DecidableEq κ] (m : List (κ × ν)) (k : κ) : Bool :=
  (lookupAssoc m k).isSome

/-- `resolver::are_siblings`: same length and same parent.  The source
slices off the last segment of each path; module paths are always
`crate`-rooted, hence nonempty, and `dropLast` agrees with that slice. -/
def are_siblings (path_a path_b : List String) : Bool :=
  if path_a.length ≠ path_b.length then false
  else path_a.dropLast == path_b.dropLast

/-- `ModuleResolver::find_type_in_module`. -/
def find_type_in_module (r : ModuleResolver) (type_name : String)
    (module_path : List String) : Option String :=
  match lookupAssoc r.module_to_file module_path with
  | some file_path =>
    match lookupAssoc r.files file_path with
    | some scope =>
      if containsKey scope.local_types type_name then some file_path else none
    | none => none
  | none => none

/-- `ModuleResolver::resolve_module_path`: split `[crate, …, Type]`
into module part and type part, look the module up, and confirm the
type is declared there. -/
def resolve_module_path (r : ModuleResolver) (module_path : List String) : ResolutionResult :=
  if module_path.length < 2 then .notFound
  else
    match module_path.getLast? with
    | some type_name =>
      let mod_path := module_path.dropLast
      match lookupAssoc r.module_to_file mod_path with
      | some file_path =>
        match lookupAssoc r.files file_path with
        | some scope =>
          if containsKey scope.local_types type_name then .found file_path else .notFound
        | none => .notFound
      | none => .notFound
    | none => .notFound

/-- `ModuleResolver::resolve_simple_name`: local declaration, explicit
import, wildcard imports in declaration order, then the whole-program
fallback with the sibling tie-break. -/
def resolve_simple_name (r : ModuleResolver) (name : String) (scope : FileScope)
    (from_file : String) : ResolutionResult :=
  if containsKey scope.local_types name then .found from_file
  else
    match lookupAssoc scope.imports name with
    | some imported => resolve_module_path r imported.path
    | none =>
      match scope.wildcard_imports.findSome? (fun wp => find_type_in_module r name wp) with
      | some file => .found file
      | none =>
        match lookupAssoc r.type_definitions name with
        | some locations =>
          match locations with
          | [single] => .found single
          | _ =>
            let siblings := locations.filter fun loc =>
              match lookupAssoc r.files loc with
              | some loc_scope => are_siblings loc_scope.module_path scope.module_path
              | none => false
            match siblings with
            | [s] => .found s
            | _ => .ambiguous locations
        | none => .notFound

/-- The segment walk of `ModuleResolver::resolve_canonical_path`:
`super` pops one segment and fails at the root, `self` is a no-op, any
other segment is pushed. -/
def walkSegments : List String → List String → Option (List String)
  | [], current_path => some current_path
  | segment :: rest, current_path =>
    if segment = "super" then
      if current_path.length > 1 then walkSegments rest current_path.dropLast
      else none
    else if segment = "self" then walkSegments rest current_path
    else walkSegments rest (current_path ++ [segment])

/-- `ModuleResolver::resolve_canonical_path`: start from the crate root
for a `crate` head (consuming it) and from the file's own module path
otherwise, then walk the remaining segments.  The source indexes
`segments[0]`, so an empty segment list is unreachable from
`resolve_path` and mapped to `none`. -/
def resolve_canonical_path (segments : List String) (scope : FileScope) :
    Option (List String) :=
  match segments with
  | [] => none
  | first :: rest =>
    if first = "crate" then walkSegments rest ["crate"]
    else walkSegments (first :: rest) scope.module_path

/-- `ModuleResolver::resolve_path`.  The result is wrapped in `Option`:
`none` models the source's out-of-bounds panic on `segments[0]` when
the segment list is empty (unreachable for any real reference). -/
def resolve_path (r : ModuleResolver) (segments : List String) (scope : FileScope) :
    Option ResolutionResult :=
  match segments with
  | [] => none
  | first :: rest =>
    match lookupAssoc scope.imports first with
    | some imported => some (resolve_module_path r (imported.path ++ rest))
    | none =>
      match resolve_canonical_path (first :: rest) scope with
      | some path => some (resolve_module_path r path)
      | none => some .notFound

/-- Rust's `str::split("::")`: greedy left-to-right split on the
two-colon separator, over the character list. -/
def splitColons : List Char → List Char → List String
  | [], acc => [String.mk acc.reverse]
  | ':' :: ':' :: rest, acc => String.mk acc.reverse :: splitColons rest []
  | c :: rest, acc => splitColons rest (c :: acc)

/-- `ModuleResolver::resolve_type`: split the reference on `::`, drop
empty segments, and dispatch between bare-name and path resolution. -/
def resolve_type (r : ModuleResolver) (type_path : String) (from_file : String) :
    Option ResolutionResult :=
  let segments := (splitColons type_path.toList []).filter (fun s => !s.isEmpty)
  match lookupAssoc r.files from_file with
  | none => some .notFound
  | some scope =>
    match segments with
    | [name] => some (resolve_simple_name r name scope from_file)
    | _ => resolve_path r segments scope

/-- Fixture for the resolver claims: `src/a.rs` and `src/b.rs` both
declare `User`; `src/c.rs` (a sibling of `src/a.rs`) references it. -/
def c4ScopeA : FileScope :=
  { module_path := ["crate", "a"], local_types := [("User", .structKind)] }

def c4ScopeB : FileScope :=
  { module_path := ["crate", "sub", "b"], local_types := [("User", .structKind)] }

def c4ScopeC : FileScope := { module_path := ["crate", "c"] }

def c4Resolver : ModuleResolver :=
  { files := [("src/a.rs", c4ScopeA), ("src/b.rs", c4ScopeB), ("src/c.rs", c4ScopeC)],
    type_definitions := [("User", ["src/a.rs", "src/b.rs"])],
    module_to_file := [(["crate", "a"], "src/a.rs"), (["crate", "sub", "b"], "src/b.rs"),
      (["crate", "c"], "src/c.rs")] }

/-- Fixture for the qualified-path resolver claim: one file at the
crate root. -/
def c5Scope : FileScope := { module_path := ["crate"] }

def c5Resolver : ModuleResolver :=
  { files := [("src/main.rs", c5Scope)],
    type_definitions := [],
    module_to_file := [(["crate"], "src/main.rs")] }

/-! # Theorems -/

/-- Unfolding of `parse_type_with_context` on a path type whose last
segment is known: only that segment's identifier and arguments are
consulted. -/
theorem parse_pathTy_some (segments : List PathSeg) (seg : PathSeg) (ctx : List String)
    (h : segments.getLast? = some seg) :
    parse_type_with_context (.pathTy segments) ctx
      = parse_type_with_context (.pathTy [seg]) ctx := by
  conv_lhs => rw [parse_type_with_context.eq_def]
  simp only []
  split
  next seg' hl =>
    rw [h] at hl
    injection hl with hl
    subst hl
    rw [parse_type_with_context.eq_def]
    rfl
  next hl =>
    rw [h] at hl
    cases hl

theorem scalarNameTable_primitive {name : String} {t : RustType}
    (h : scalarNameTable name = some t) : ∃ p, t = .primitive p := by
  unfold scalarNameTable at h
  split_ifs at h <;> exact ⟨_, (Option.some.inj h).symm⟩

theorem scalarNameTable_eq_none {name : String} (h : recognizedTypeName name = false) :
    scalarNameTable name = none := by
  simp only [recognizedTypeName, List.mem_cons, decide_eq_false_iff_not] at h
  push_neg at h
  unfold scalarNameTable
  split_ifs <;> simp_all

/-- Every `Generic` leaf in a parsed type tree carries a name from the
generic-parameter context: the parser threads the same context through
every recursive call and only mints `Generic` after a membership test. -/
theorem mentions_generic_mem : ∀ (ty : STy) (ctx : List String) (n : String),
    mentionsGenericParam n (parse_type_with_context ty ctx) = true → n ∈ ctx
  | .pathTy segs, ctx, n => by
    intro h
    match hl : segs.getLast? with
    | none =>
      rw [parse_type_with_context.eq_def] at h
      simp only [] at h
      split at h
      next seg' hl' => rw [hl] at hl'; cases hl'
      next hl' => simp [mentionsGenericParam] at h
    | some seg =>
      rw [parse_pathTy_some _ _ _ hl] at h
      rw [parse_type_with_context.eq_def] at h
      simp only [] at h
      split at h
      case _ seg' hl' =>
        simp only [List.getLast?_singleton, Option.some.injEq] at hl'
        subst hl'
        have hmem := List.sizeOf_lt_of_mem (mem_of_getLast?_eq hl)
        have hargs := sizeOf_args_lt seg
        by_cases hctx : ctx.contains seg.ident = true
        · rw [if_pos hctx] at h
          simp only [mentionsGenericParam, beq_iff_eq] at h
          subst h
          simpa using hctx
        · rw [if_neg hctx] at h
          split at h
          next scalar hs =>
            obtain ⟨p, rfl⟩ := scalarNameTable_primitive hs
            simp [mentionsGenericParam] at h
          next hs =>
            split_ifs at h with hv hoo hr hm
            · split at h
              next inner hx =>
                have hout := sizeOf_extract_single hx
                simp only [mentionsGenericParam] at h
                exact mentions_generic_mem inner ctx n h
              next hx => simp [mentionsGenericParam] at h
            · split at h
              next inner hx =>
                have hout := sizeOf_extract_single hx
                simp only [mentionsGenericParam] at h
                exact mentions_generic_mem inner ctx n h
              next hx => simp [mentionsGenericParam] at h
            · split at h
              next inner hx =>
                have hout := sizeOf_extract_single hx
                simp only [mentionsGenericParam] at h
                exact mentions_generic_mem inner ctx n h
              next hx => simp [mentionsGenericParam] at h
            · split at h
              next key value hx =>
                obtain ⟨hout1, hout2⟩ := sizeOf_extract_two hx
                simp only [mentionsGenericParam, Bool.or_eq_true] at h
                rcases h with h | h
                · exact mentions_generic_mem key ctx n h
                · exact mentions_generic_mem value ctx n h
              next hx => simp [mentionsGenericParam] at h
            · simp [mentionsGenericParam] at h
      case _ hl' => simp [mentionsGenericParam] at h
  | .tupleTy elems, ctx, n => by
    intro h
    rw [parse_type_with_context.eq_def] at h
    simp only [] at h
    split at h
    · simp [mentionsGenericParam] at h
    · rw [mentionsGenericParam.eq_def] at h
      simp only [List.any_eq_true, List.mem_attach, true_and] at h
      obtain ⟨⟨b, hbL⟩, hmen⟩ := h
      obtain ⟨⟨x, hxmem⟩, _, rfl⟩ := List.mem_map.1 hbL
      have hszx := List.sizeOf_lt_of_mem hxmem
      exact mentions_generic_mem x ctx n hmen
  | .refTy t, ctx, n => by
    intro h
    rw [parse_type_with_context.eq_def] at h
    simp only [] at h
    exact mentions_generic_mem t ctx n h
  | .sliceTy t, ctx, n => by
    intro h
    rw [parse_type_with_context.eq_def] at h
    simp only [mentionsGenericParam] at h
    exact mentions_generic_mem t ctx n h
  | .otherTy d, ctx, n => by
    intro h
    rw [parse_type_with_context.eq_def] at h
    simp [mentionsGenericParam] at h
termination_by ty _ _ => sizeOf ty
decreasing_by
  all_goals simp_wf
  all_goals omega

/-- The catch-all arm: a last segment that is not a context generic
parameter and not in the recognized name table parses to `Custom`. -/
theorem parse_pathTy_custom (segs : List PathSeg) (seg : PathSeg) (ctx : List String)
    (hl : segs.getLast? = some seg) (hctx : seg.ident ∉ ctx)
    (hrec : recognizedTypeName seg.ident = false) :
    parse_type_with_context (.pathTy segs) ctx = .custom seg.ident := by
  have hVec : seg.ident ≠ "Vec" := by
    intro he; rw [he] at hrec; simp [recognizedTypeName] at hrec
  have hOption : seg.ident ≠ "Option" := by
    intro he; rw [he] at hrec; simp [recognizedTypeName] at hrec
  have hResult : seg.ident ≠ "Result" := by
    intro he; rw [he] at hrec; simp [recognizedTypeName] at hrec
  have hHashMap : seg.ident ≠ "HashMap" := by
    intro he; rw [he] at hrec; simp [recognizedTypeName] at hrec
  have hBTreeMap : seg.ident ≠ "BTreeMap" := by
    intro he; rw [he] at hrec; simp [recognizedTypeName] at hrec
  rw [parse_pathTy_some _ _ _ hl]
  rw [parse_type_with_context.eq_def]
  simp only []
  split
  next seg' hl' =>
    simp only [List.getLast?_singleton, Option.some.injEq] at hl'
    subst hl'
    rw [if_neg (by simpa using hctx), scalarNameTable_eq_none hrec]
    simp only []
    rw [if_neg hVec, if_neg hOption, if_neg hResult,
      if_neg (by simp [hHashMap, hBTreeMap])]
  next hl' => simp at hl'

/-- A path type never parses to `Unit`: every arm of the path branch
produces a `Generic`, a `Primitive`, a container, a `Custom`, or an
`Unknown`. -/
theorem parse_pathTy_ne_unit (segs : List PathSeg) (ctx : List String) :
    parse_type_with_context (.pathTy segs) ctx ≠ .unit := by
  intro h
  match hl : segs.getLast? with
  | none =>
    rw [parse_type_with_context.eq_def] at h
    simp only [] at h
    split at h
    next seg' hl' => rw [hl] at hl'; cases hl'
    next hl' => cases h
  | some seg =>
    rw [parse_pathTy_some _ _ _ hl] at h
    rw [parse_type_with_context.eq_def] at h
    simp only [] at h
    split at h
    case _ seg' hl' =>
      simp only [List.getLast?_singleton, Option.some.injEq] at hl'
      subst hl'
      by_cases hctx : ctx.contains seg.ident = true
      · rw [if_pos hctx] at h; cases h
      · rw [if_neg hctx] at h
        split at h
        next scalar hs =>
          obtain ⟨p, rfl⟩ := scalarNameTable_primitive hs
          cases h
        next hs =>
          split_ifs at h with hv ho hr hm
          all_goals first
            | cases h
            | (split at h <;> cases h)
    case _ hl' => simp at hl'

/-- A parsed type is `Unit` exactly when the source type is the empty
tuple, possibly behind references. -/
theorem parse_unit_iff : ∀ (ty : STy) (ctx : List String),
    parse_type_with_context ty ctx = .unit ↔ isUnitBehindRefs ty = true
  | .pathTy segs, ctx => by
    simp [parse_pathTy_ne_unit segs ctx, isUnitBehindRefs]
  | .tupleTy [], ctx => by
    rw [parse_type_with_context.eq_def]
    simp [isUnitBehindRefs]
  | .tupleTy (e :: es), ctx => by
    rw [parse_type_with_context.eq_def]
    simp [isUnitBehindRefs]
  | .refTy t, ctx => by
    rw [parse_type_with_context.eq_def]
    simp only []
    rw [isUnitBehindRefs.eq_def]
    exact parse_unit_iff t ctx
  | .sliceTy t, ctx => by
    rw [parse_type_with_context.eq_def]
    simp [isUnitBehindRefs]
  | .otherTy d, ctx => by
    rw [parse_type_with_context.eq_def]
    simp [isUnitBehindRefs]

/-- C4: for a bare name not locally declared and not imported by the
referencing file, whole-program lookup governs: zero declaring files
yield `NotFound`; with two or more declaring files, resolution is
`Found` of the unique sibling (same module-path depth, same parent
path) when filtering to siblings leaves exactly one candidate, and
`Ambiguous` over exactly the declaring files otherwise. -/
theorem c4_bare_name_sibling_tie_break (r : ModuleResolver) (name type_path : String)
    (scope : FileScope) (from_file : String) (locations : List String)
    (hscope : lookupAssoc r.files from_file = some scope)
    (hseg : (splitColons type_path.toList []).filter (fun s => !s.isEmpty) = [name])
    (hlocal : lookupAssoc scope.local_types name = none)
    (himp : scope.imports = [])
    (hwild : scope.wildcard_imports = []) :
    (resolve_type r type_path from_file = some (resolve_simple_name r name scope from_file))
    ∧ (lookupAssoc r.type_definitions name = none →
        resolve_simple_name r name scope from_file = .notFound)
    ∧ (lookupAssoc r.type_definitions name = some locations → 2 ≤ locations.length →
        resolve_simple_name r name scope from_file =
          (match locations.filter (fun loc =>
              match lookupAssoc r.files loc with
              | some loc_scope =>
                loc_scope.module_path.length == scope.module_path.length
                  && loc_scope.module_path.dropLast == scope.module_path.dropLast
              | none => false) with
           | [s] => .found s
           | _ => .ambiguous locations)) := by
  have hck : containsKey scope.local_types name = false := by
    simp [containsKey, hlocal]
  have himpnone : lookupAssoc scope.imports name = none := by
    rw [himp]; rfl
  have hwildnone :
      scope.wildcard_imports.findSome? (fun wp => find_type_in_module r name wp) = none := by
    rw [hwild]; rfl
  refine ⟨?_, ?_, ?_⟩
  · rw [resolve_type.eq_def]
    simp only [String.toList] at hseg
    simp [hseg, hscope]
  · intro hdefs
    simp [resolve_simple_name, hck, himpnone, hwildnone, hdefs]
  · intro hdefs hlen
    match locations, hlen with
    | a :: b :: t, _ =>
      have hfilt : (a :: b :: t).filter (fun loc =>
            match lookupAssoc r.files loc with
            | some loc_scope => are_siblings loc_scope.module_path scope.module_path
            | none => false)
          = (a :: b :: t).filter (fun loc =>
            match lookupAssoc r.files loc with
            | some loc_scope =>
              loc_scope.module_path.length == scope.module_path.length
                && loc_scope.module_path.dropLast == scope.module_path.dropLast
            | none => false) := by
        apply List.filter_congr
        intro loc hmem
        cases hsc : lookupAssoc r.files loc with
        | none => simp
        | some loc_scope =>
          simp only [are_siblings]
          by_cases hl : loc_scope.module_path.length = scope.module_path.length <;>
            simp [hl]
      simp only [resolve_simple_name, hck, Bool.false_eq_true, if_false, himpnone,
        hwildnone, hdefs, hfilt]

/-- C4 witness: `User` is declared in `src/a.rs` and `src/b.rs`;
referenced from `src/c.rs` (a sibling of `src/a.rs` only), the sibling
filter narrows the candidates to exactly one. -/
theorem c4_bare_name_sibling_tie_break_witness :
    resolve_type c4Resolver "User" "src/c.rs"
      = some (resolve_simple_name c4Resolver "User" c4ScopeC "src/c.rs")
    ∧ resolve_simple_name c4Resolver "User" c4ScopeC "src/c.rs"
      = (match (["src/a.rs", "src/b.rs"] : List String).filter (fun loc =>
            match lookupAssoc c4Resolver.files loc with
            | some loc_scope =>
              loc_scope.module_path.length == c4ScopeC.module_path.length
                && loc_scope.module_path.dropLast == c4ScopeC.module_path.dropLast
            | none => false) with
         | [s] => ResolutionResult.found s
         | _ => ResolutionResult.ambiguous ["src/a.rs", "src/b.rs"]) :=
  have h := c4_bare_name_sibling_tie_break c4Resolver "User" "User" c4ScopeC "src/c.rs"
    ["src/a.rs", "src/b.rs"] (by decide) (by decide) (by decide) rfl rfl
  ⟨h.1, h.2.2 (by decide) (by decide)⟩

/-- C5: qualified-path resolution is total over the outcome variants —
a missing scope for the referencing file yields `NotFound`, any
reference with at least one nonempty segment resolves to some outcome
(never a crash), a `self` segment leaves the walked path unchanged, a
`super` segment at the crate root yields `NotFound`, and a failed
module-table or local-type lookup yields `NotFound`. -/
theorem c5_qualified_resolution_total (r : ModuleResolver) (type_path from_file : String)
    (scope : FileScope) :
    (lookupAssoc r.files from_file = none →
      resolve_type r type_path from_file = some .notFound)
    ∧ ((splitColons type_path.toList []).filter (fun s => !s.isEmpty) ≠ [] →
        (resolve_type r type_path from_file).isSome)
    ∧ (∀ (rest current_path : List String),
        walkSegments ("self" :: rest) current_path = walkSegments rest current_path)
    ∧ (∀ rest : List String, scope.module_path = ["crate"] →
        lookupAssoc scope.imports "super" = none →
        resolve_path r ("super" :: rest) scope = some .notFound)
    ∧ (∀ module_path : List String,
        lookupAssoc r.module_to_file module_path.dropLast = none →
        resolve_module_path r module_path = .notFound)
    ∧ (∀ (module_path : List String) (file_path : String) (scope' : FileScope)
        (type_name : String),
        module_path.getLast? = some type_name →
        lookupAssoc r.module_to_file module_path.dropLast = some file_path →
        lookupAssoc r.files file_path = some scope' →
        lookupAssoc scope'.local_types type_name = none →
        resolve_module_path r module_path = .notFound) := by
  have hrp : ∀ (segs : List String) (sc : FileScope), segs ≠ [] →
      (resolve_path r segs sc).isSome := by
    intro segs sc hne
    match segs with
    | f :: rest =>
      rw [resolve_path.eq_def]
      cases h1 : lookupAssoc sc.imports f with
      | some imported => simp [h1]
      | none =>
        cases h2 : resolve_canonical_path (f :: rest) sc <;> simp [h1, h2]
  refine ⟨?_, ?_, ?_, ?_, ?_, ?_⟩
  · intro h
    simp [resolve_type, h]
  · intro hne
    rw [resolve_type.eq_def]
    cases hf : lookupAssoc r.files from_file with
    | none => simp
    | some scope' =>
      rcases hsegs : (splitColons type_path.toList []).filter (fun s => !s.isEmpty) with
        _ | ⟨n, _ | ⟨m, t⟩⟩
      · exact absurd hsegs hne
      · simp only [hsegs]
        rfl
      · simp only [hsegs]
        exact hrp (n :: m :: t) scope' (by simp)
  · intro rest current_path
    simp [walkSegments]
  · intro rest hmp himps
    rw [resolve_path.eq_def]
    simp only [himps, resolve_canonical_path, hmp]
    simp [walkSegments]
  · intro module_path hmod
    rw [resolve_module_path.eq_def]
    by_cases hl : module_path.length < 2
    · simp [hl]
    · cases hgl : module_path.getLast? with
      | none => simp [hl, hgl]
      | some tn => simp [hl, hgl, hmod]
  · intro module_path file_path scope' type_name hgl hmod hfile hloc
    rw [resolve_module_path.eq_def]
    by_cases hl : module_path.length < 2
    · simp [hl]
    · simp [hl, hgl, hmod, hfile, containsKey, hloc]

/-- C5 witness. -/
theorem c5_qualified_resolution_total_witness :
    resolve_type c5Resolver "User" "src/missing.rs" = some .notFound
    ∧ (resolve_type c5Resolver "a::B" "src/main.rs").isSome
    ∧ walkSegments ["self", "x"] ["crate", "m"] = walkSegments ["x"] ["crate", "m"]
    ∧ resolve_path c5Resolver ["super", "User"] c5Scope = some .notFound
    ∧ resolve_module_path c5Resolver ["crate", "nosuch", "User"] = .notFound
    ∧ resolve_module_path c5Resolver ["crate", "User"] = .notFound :=
  ⟨(c5_qualified_resolution_total c5Resolver "User" "src/missing.rs" c5Scope).1 (by decide),
   (c5_qualified_resolution_total c5Resolver "a::B" "src/main.rs" c5Scope).2.1 (by decide),
   (c5_qualified_resolution_total c5Resolver "" "" c5Scope).2.2.1 ["x"] ["crate", "m"],
   (c5_qualified_resolution_total c5Resolver "" "" c5Scope).2.2.2.1 ["User"] rfl rfl,
   (c5_qualified_resolution_total c5Resolver "" "" c5Scope).2.2.2.2.1
     ["crate", "nosuch", "User"] (by decide),
   (c5_qualified_resolution_total c5Resolver "" "" c5Scope).2.2.2.2.2
     ["crate", "User"] "src/main.rs" c5Scope "User" rfl (by decide) (by decide) rfl⟩

/-- C2: mapping a nested optional `Optional(Optional(T))` appends a
single null alternative to the mapped inner optional at each level —
the result is the flat union `map(T) | null | null`, never a
parenthesized union of unions. -/
theorem c2_nested_optional_single_nullable_union (t : RustType) (ctx : GeneratorContext) :
    rust_to_typescript (.option (.option t)) ctx
      = rust_to_typescript (.option t) ctx ++ " | null"
    ∧ rust_to_typescript (.option t) ctx = rust_to_typescript t ctx ++ " | null"
    ∧ rust_to_typescript (.option (.option t)) ctx
      = rust_to_typescript t ctx ++ " | null | null" := by
  refine ⟨?_, ?_, ?_⟩
  · simp [rust_to_typescript]
  · simp [rust_to_typescript]
  · simp only [rust_to_typescript]
    rw [String.append_assoc]
    rfl

/-- C3 fails as stated: a `Map` keyed by the unit type is not covered by
the spec's widening enumeration (bool, list, optional, map, tuple), so
the claim predicts `Record<void, number>` for `Map{Unit, i32}`, but the
code widens the key and produces `Record<string, number>`. -/
theorem c3_counterexample_unit_key :
    rust_to_typescript (.hashMap .unit (.primitive "i32")) defaultCtx
      = "Record<string, number>"
    ∧ "Record<" ++ mapKeyPerClaim .unit defaultCtx ++ ", "
        ++ rust_to_typescript (.primitive "i32") defaultCtx ++ ">"
      = "Record<void, number>"
    ∧ ("Record<string, number>" : String) ≠ "Record<void, number>" := by
  refine ⟨?_, ?_, by decide⟩ <;>
    simp [rust_to_typescript, mapKeyPerClaim, widensKeyPerClaim,
      primitiveToTypescript, knownPrimitiveToTypescript,
      PRIMITIVE_STRING_TYPES, SIGNED_INTEGER_TYPES, UNSIGNED_INTEGER_TYPES,
      FLOAT_TYPES, BOOL_TYPE, EXTERNAL_STRING_TYPES, EXTERNAL_NUMBER_TYPES,
      JSON_VALUE_TYPE, BYTES_TYPE]

/-- C3 amended: the mapped type of `Map{K,V}` is an indexed record whose
key is map(K) exactly when K is a non-boolean primitive, a named type,
or a generic parameter; any other key — the boolean primitive, the
list/optional/map/tuple composites, and also fallible, unit and
unrecognized keys — is widened to string.  In particular `Map{bool,V}`
and `Map{string,V}` both map to `Record<string, map(V)>`, and a named
key `Named("Status")` is preserved. -/
theorem c3_map_key_widening_amended (k v : RustType) (ctx : GeneratorContext) :
    rust_to_typescript (.hashMap k v) ctx
      = (if mapKeyPreservedAmended k then
          "Record<" ++ rust_to_typescript k ctx ++ ", " ++ rust_to_typescript v ctx ++ ">"
        else "Record<string, " ++ rust_to_typescript v ctx ++ ">")
    ∧ rust_to_typescript (.hashMap (.primitive "bool") v) ctx
      = "Record<string, " ++ rust_to_typescript v ctx ++ ">"
    ∧ rust_to_typescript (.hashMap (.primitive "String") v) ctx
      = "Record<string, " ++ rust_to_typescript v ctx ++ ">"
    ∧ rust_to_typescript (.hashMap (.custom "Status") v) defaultCtx
      = "Record<Status, " ++ rust_to_typescript v defaultCtx ++ ">" := by
  refine ⟨?_, ?_, ?_, ?_⟩
  · cases k <;> simp [rust_to_typescript, mapKeyPreservedAmended]
  · simp [rust_to_typescript]
  · simp [rust_to_typescript, primitiveToTypescript, knownPrimitiveToTypescript,
      PRIMITIVE_STRING_TYPES]
  · simp [rust_to_typescript, defaultCtx, GeneratorContext.is_custom_type]

/-- C8 fails as stated: a declared return type `&()` — a reference to
the empty tuple, not the empty tuple itself — is unwrapped by the
extractor, parses to `Unit`, and is recorded as `None`, although the
claim allows `None` only for a missing return or the empty tuple
itself. -/
theorem c8_counterexample_ref_to_unit :
    parse_return_type (.typed (.refTy (.tupleTy []))) = none
    ∧ ¬ returnAbsentPerClaim (.typed (.refTy (.tupleTy []))) := by
  constructor
  · have h : parse_type (.refTy (.tupleTy [])) = .unit := by
      rw [parse_type, parse_type_with_context.eq_def]
      simp only []
      rw [parse_type_with_context.eq_def]
      simp
    simp [parse_return_type, h]
  · simp [returnAbsentPerClaim]

/-- C8 amended: the recorded return type is `None` exactly when no
return is declared or the declared return type is the empty tuple,
possibly behind references (which the extractor unwraps transparently);
any other declared return type is recorded as `Some` of its parsed type
expression. -/
theorem c8_return_type_none_iff_unit (rt : SReturnType) (ty : STy) :
    (parse_return_type rt = none ↔
      (rt = .default ∨ ∃ t, rt = .typed t ∧ isUnitBehindRefs t = true))
    ∧ (isUnitBehindRefs ty = false →
        parse_return_type (.typed ty) = some (parse_type ty)) := by
  constructor
  · cases rt with
    | default => simp [parse_return_type]
    | typed t =>
      rcases hpt : parse_type t with _ | _ | _ | _ | _ | _ | _ | _ | _ | _ <;>
        simp [parse_return_type, hpt, ← parse_unit_iff t [], parse_type] <;>
        simp [parse_type] at hpt <;> simp [hpt]
  · intro h
    rcases hpt : parse_type ty with _ | _ | _ | _ | _ | _ | _ | _ | _ | _ <;>
      simp [parse_return_type, hpt]
    rw [parse_type, parse_unit_iff ty []] at hpt
    rw [hpt] at h
    cases h

/-- C8 witness. -/
theorem c8_return_type_none_iff_unit_witness :
    isUnitBehindRefs (.pathTy [PathSeg.mk "String" .noArgs]) = false
    ∧ parse_return_type (.typed (.pathTy [PathSeg.mk "String" .noArgs]))
        = some (parse_type (.pathTy [PathSeg.mk "String" .noArgs])) :=
  ⟨rfl, (c8_return_type_none_iff_unit .default
      (.pathTy [PathSeg.mk "String" .noArgs])).2 rfl⟩

/-- C9: a parsed type tree contains `GenericParam(name)` only when
`name` is a declared generic parameter of the enclosing declaration; a
last segment whose identifier is in the generic context parses to
`GenericParam` of it, and one that is neither in the context nor in the
fixed name table parses to a `Named` (`Custom`) reference to the same
identifier. -/
theorem c9_generic_param_iff_declared :
    (∀ (ty : STy) (ctx : List String) (n : String),
        mentionsGenericParam n (parse_type_with_context ty ctx) = true → n ∈ ctx)
    ∧ (∀ (segments : List PathSeg) (seg : PathSeg) (ctx : List String),
        segments.getLast? = some seg → seg.ident ∈ ctx →
        parse_type_with_context (.pathTy segments) ctx = .generic seg.ident)
    ∧ (∀ (segments : List PathSeg) (seg : PathSeg) (ctx : List String),
        segments.getLast? = some seg → seg.ident ∉ ctx →
        recognizedTypeName seg.ident = false →
        parse_type_with_context (.pathTy segments) ctx = .custom seg.ident) := by
  refine ⟨mentions_generic_mem, ?_, parse_pathTy_custom⟩
  intro segments seg ctx h hc
  rw [parse_type_with_context.eq_def]
  simp only []
  split
  next seg' hl =>
    rw [h] at hl
    injection hl with hl
    subst hl
    simp [hc]
  next hl =>
    rw [h] at hl
    cases hl

/-- C9 witness. -/
theorem c9_generic_param_iff_declared_witness :
    "T" ∈ (["T"] : List String)
    ∧ parse_type_with_context (.pathTy [PathSeg.mk "T" .noArgs]) ["T"] = .generic "T"
    ∧ parse_type_with_context (.pathTy [PathSeg.mk "User" .noArgs]) [] = .custom "User" :=
  ⟨c9_generic_param_iff_declared.1 (.pathTy [PathSeg.mk "T" .noArgs]) ["T"] "T"
      (by simp [parse_type_with_context, PathSeg.ident, mentionsGenericParam]),
   c9_generic_param_iff_declared.2.1 [PathSeg.mk "T" .noArgs] (PathSeg.mk "T" .noArgs) ["T"]
      (by simp) (by simp [PathSeg.ident]),
   c9_generic_param_iff_declared.2.2 [PathSeg.mk "User" .noArgs] (PathSeg.mk "User" .noArgs) []
      (by simp) (by simp) (by decide)⟩

/-- C10: a path-shaped type is classified solely by its final segment —
parsing a qualified path equals parsing the bare final segment with the
same generic arguments, and the framework-injected-type test likewise
looks only at the final segment; in particular
`std::string::String` parses as the string primitive and
`my_module::Duration` as the well-known `Duration` type. -/
theorem c10_classified_by_last_segment :
    (∀ (segments : List PathSeg) (seg : PathSeg) (ctx : List String),
        segments.getLast? = some seg →
        parse_type_with_context (.pathTy segments) ctx
          = parse_type_with_context (.pathTy [seg]) ctx)
    ∧ (∀ (segments : List PathSeg) (seg : PathSeg),
        segments.getLast? = some seg →
        is_tauri_special_type (.pathTy segments) = is_tauri_special_type (.pathTy [seg]))
    ∧ parse_type (.pathTy [PathSeg.mk "std" .noArgs, PathSeg.mk "string" .noArgs,
        PathSeg.mk "String" .noArgs]) = .primitive "String"
    ∧ parse_type (.pathTy [PathSeg.mk "my_module" .noArgs, PathSeg.mk "Duration" .noArgs])
        = .primitive "Duration" := by
  refine ⟨parse_pathTy_some, ?_, ?_, ?_⟩
  · intro segments seg h
    simp [is_tauri_special_type, h]
  · rw [parse_type, parse_pathTy_some _ (PathSeg.mk "String" .noArgs) _ (by simp)]
    simp [parse_type_with_context, PathSeg.ident, scalarNameTable]
  · rw [parse_type, parse_pathTy_some _ (PathSeg.mk "Duration" .noArgs) _ (by simp)]
    simp [parse_type_with_context, PathSeg.ident, scalarNameTable]

theorem derive_path_cond (path : List String) :
    ((match path with
      | [single] => single = "Serialize" || single = "Deserialize"
      | _ => false)
     || (match path.getLast? with
         | some last => last = "Serialize" || last = "Deserialize"
         | none => false)) = true
    ↔ (path.getLast? = some "Serialize" ∨ path.getLast? = some "Deserialize") := by
  match path with
  | [] => simp
  | [x] => simp [List.getLast?_singleton]
  | x :: y :: t =>
    rcases hgl : (x :: y :: t).getLast? with _ | l
    · simp [List.getLast?_eq_none_iff] at hgl
    · simp [hgl]

/-- `is_serializable` decides exactly the spec's direct-mode condition:
a derive attribute names `Serialize` or `Deserialize` by its final
segment (the single-identifier check is subsumed). -/
theorem is_serializable_iff (attrs : List Attr) :
    is_serializable attrs = true ↔ carriesSerdeDerivePerSpec attrs := by
  simp only [is_serializable, List.any_eq_true, carriesSerdeDerivePerSpec]
  constructor
  · rintro ⟨attr, hmem, hmatch⟩
    cases attr with
    | derive oargs =>
      cases oargs with
      | none => simp at hmatch
      | some paths =>
        simp only [List.any_eq_true] at hmatch
        obtain ⟨path, hp, hcond⟩ := hmatch
        exact ⟨paths, hmem, path, hp, (derive_path_cond path).1 hcond⟩
    | serde a => simp at hmatch
    | pathAttr s => simp at hmatch
    | nameValueAttr p => simp at hmatch
    | otherAttr => simp at hmatch
  · rintro ⟨args, hmem, path, hp, hlast⟩
    refine ⟨.derive (some args), hmem, ?_⟩
    simp only [List.any_eq_true]
    exact ⟨path, hp, (derive_path_cond path).2 hlast⟩

/-- C1 fails as stated: in expanded mode, a struct that still carries a
`#[derive(Serialize)]` attribute is exported even though its name is
backed by no trait implementation block in the file and no field
carries a serde attribute — a third export condition the claim's
"no other condition" excludes. -/
theorem c1_counterexample_derive_survives_expansion :
    ((parse_types_items
        [.structItem "Foo" [.derive (some [["Serialize"]])] [] (.named [])]
        "lib.rs" true).1.map (·.name) = ["Foo"])
    ∧ collect_serializable_types
        [.structItem "Foo" [.derive (some [["Serialize"]])] [] (.named [])] = []
    ∧ anyFieldOrVariantSerdePerClaim
        (.structItem "Foo" [.derive (some [["Serialize"]])] [] (.named [])) = false := by
  refine ⟨?_, ?_, ?_⟩
  · simp [parse_types_items, collect_serializable_types, collect_serializable_types_recursive,
      parse_items, is_serializable, parse_struct, has_serde_field_attrs]
  · simp [collect_serializable_types, collect_serializable_types_recursive]
  · simp [anyFieldOrVariantSerdePerClaim]

/-- C1 amended: in expanded mode a struct or enum declaration is
exported if and only if (a) its type name is in the precomputed set of
impl-backed names, or (b) the declaration itself still carries a derive
attribute naming Serialize/Deserialize (the direct-mode condition is
also checked in expanded mode), or (c) a serde attribute sits directly
on a *named* field for structs, respectively on any variant or variant
field for enums; nothing else causes export. -/
theorem c1_expanded_export_rule_amended :
    (∀ (ident : String) (attrs : List Attr) (generics : List GParam) (fields : SFields)
        (rest : List SItem) (sf : String) (st : List String)
        (structs : List RustStruct) (enums : List RustEnum),
      parse_items (.structItem ident attrs generics fields :: rest) sf true st structs enums
        = parse_items rest sf true st
            (if ident ∈ st ∨ is_serializable attrs = true ∨ has_serde_field_attrs fields = true
             then structs ++ (parse_struct ident attrs generics fields sf).toList
             else structs) enums)
    ∧ (∀ (ident : String) (attrs : List Attr) (generics : List GParam)
        (variants : List SVariant) (rest : List SItem) (sf : String) (st : List String)
        (structs : List RustStruct) (enums : List RustEnum),
      parse_items (.enumItem ident attrs generics variants :: rest) sf true st structs enums
        = parse_items rest sf true st structs
            (if ident ∈ st ∨ is_serializable attrs = true
                ∨ has_serde_variant_attrs variants = true
             then enums ++ (parse_enum ident attrs generics variants sf).toList
             else enums))
    ∧ (∀ attrs : List Attr, is_serializable attrs = true ↔ carriesSerdeDerivePerSpec attrs)
    ∧ (∀ fs : List SField, has_serde_field_attrs (.named fs) = true
        ↔ ∃ field ∈ fs, ∃ attr ∈ field.attrs, attrPathIsSerde attr = true)
    ∧ (∀ fs : List SField, has_serde_field_attrs (.unnamed fs) = false)
    ∧ (∀ variants : List SVariant, has_serde_variant_attrs variants = true
        ↔ ∃ variant ∈ variants,
            (∃ attr ∈ variant.attrs, attrPathIsSerde attr = true)
            ∨ (∃ fs, (variant.fields = .named fs ∨ variant.fields = .unnamed fs)
                ∧ ∃ field ∈ fs, ∃ attr ∈ field.attrs, attrPathIsSerde attr = true)) := by
  refine ⟨?_, ?_, is_serializable_iff, ?_, ?_, ?_⟩
  · intro ident attrs generics fields rest sf st structs enums
    have hb : (st.contains ident || is_serializable attrs || has_serde_field_attrs fields) = true
        ↔ (ident ∈ st ∨ is_serializable attrs = true ∨ has_serde_field_attrs fields = true) := by
      simp [or_assoc]
    rcases hps : parse_struct ident attrs generics fields sf with _ | s <;>
      by_cases h : ident ∈ st ∨ is_serializable attrs = true
        ∨ has_serde_field_attrs fields = true <;>
      simp only [parse_items, hps, hb, h] <;>
      first
        | rfl
        | (have h2 : (ident ∈ st ∨ is_serializable attrs = true)
              ∨ has_serde_field_attrs fields = true := by tauto
           simp [h2])
        | (have h2 : ¬ ((ident ∈ st ∨ is_serializable attrs = true)
              ∨ has_serde_field_attrs fields = true) := by tauto
           simp [h2])
  · intro ident attrs generics variants rest sf st structs enums
    have hb : (st.contains ident || is_serializable attrs
          || has_serde_variant_attrs variants) = true
        ↔ (ident ∈ st ∨ is_serializable attrs = true
            ∨ has_serde_variant_attrs variants = true) := by
      simp [or_assoc]
    rcases hps : parse_enum ident attrs generics variants sf with _ | e <;>
      by_cases h : ident ∈ st ∨ is_serializable attrs = true
        ∨ has_serde_variant_attrs variants = true <;>
      simp only [parse_items, hps, hb, h] <;>
      first
        | rfl
        | (have h2 : (ident ∈ st ∨ is_serializable attrs = true)
              ∨ has_serde_variant_attrs variants = true := by tauto
           simp [h2])
        | (have h2 : ¬ ((ident ∈ st ∨ is_serializable attrs = true)
              ∨ has_serde_variant_attrs variants = true) := by tauto
           simp [h2])
  · intro fs
    simp [has_serde_field_attrs, List.any_eq_true]
  · intro fs
    rfl
  · intro variants
    simp only [has_serde_variant_attrs, List.any_eq_true, Bool.or_eq_true]
    refine exists_congr fun variant => and_congr_right fun _ => or_congr .rfl ?_
    cases hf : variant.fields with
    | named fs =>
      simp only [List.any_eq_true]
      constructor
      · intro h
        exact ⟨fs, Or.inl rfl, h⟩
      · rintro ⟨fs', hor, h⟩
        rcases hor with he | he
        · cases he
          exact h
        · cases he
    | unnamed fs =>
      simp only [List.any_eq_true]
      constructor
      · intro h
        exact ⟨fs, Or.inr rfl, h⟩
      · rintro ⟨fs', hor, h⟩
        rcases hor with he | he
        · cases he
        · cases he
          exact h
    | unitFields =>
      simp only []
      constructor
      · intro h
        cases h
      · rintro ⟨fs', hor, h⟩
        rcases hor with he | he <;> cases he

/-- C6: a struct field's output name is the explicit serde rename when
present and the original name otherwise — the container `rename_all`
rule is never consulted for struct fields (the attributes argument does
not influence `parse_struct` at all); an enum variant's output name is
the explicit rename when present, else the `rename_all` conversion of
the variant name when a rule is present, else the original name; named
fields inside a variant follow the struct-field rule. -/
theorem c6_rename_resolution (ident : String) (attrs attrs' : List Attr)
    (generics : List GParam) (fs : List SField) (fields : SFields)
    (variants : List SVariant) (sf : String) :
    (((parse_struct ident attrs generics (.named fs) sf).map fun s => s.fields.map (·.name))
      = some (fs.filterMap fun field => field.ident.map fun n =>
          match get_serde_rename field.attrs with
          | some r => r
          | none => n))
    ∧ parse_struct ident attrs generics fields sf
        = parse_struct ident attrs' generics fields sf
    ∧ (((parse_enum ident attrs generics variants sf).map fun e => e.variants.map (·.name))
      = some (variants.map fun v =>
          match get_serde_rename v.attrs with
          | some r => r
          | none =>
            match (parse_serde_container_attrs attrs).rename_all with
            | some rule => (apply_rename_all v.ident (some rule)).getD v.ident
            | none => v.ident))
    ∧ (∀ (vIdent : String) (vAttrs : List Attr),
        ((parse_enum ident attrs generics [⟨vIdent, vAttrs, .named fs⟩] sf).map
            fun e => e.variants.map (·.data))
          = some [VariantData.structData (fs.filterMap fun field =>
              field.ident.map fun n =>
                { name := match get_serde_rename field.attrs with
                          | some r => r
                          | none => n,
                  ty := parse_type_with_context field.ty (genericNames generics) })]) := by
  refine ⟨?_, rfl, ?_, ?_⟩
  · simp only [parse_struct, Option.map_some', Option.some.injEq, List.map_filterMap]
    congr 1
    funext field
    cases field.ident <;> cases hr : get_serde_rename field.attrs <;> simp [hr]
  · simp only [parse_enum, Option.map_some', Option.some.injEq, List.map_map]
    congr 1
    funext v
    cases hr : get_serde_rename v.attrs <;>
      cases hra : (parse_serde_container_attrs attrs).rename_all <;>
      simp [hr, hra, Option.orElse, apply_rename_all]
  · intro vIdent vAttrs
    simp only [parse_enum, Option.map_some', Option.some.injEq, List.map_cons, List.map_nil,
      List.cons.injEq, and_true]
    congr 2
    funext field
    cases field.ident <;> cases hr : get_serde_rename field.attrs <;> simp [hr]

/-- C7: the wire-shape tag of a parsed enum is `Untagged` iff the
container attributes set the untagged flag; with the flag clear it is
`AdjacentlyTagged tag content` iff both the tag and content strings are
present, `InternallyTagged tag` iff only the tag is present, and
`ExternallyTagged` iff no tag is present. -/
theorem c7_enum_wire_shape (ident : String) (attrs : List Attr) (generics : List GParam)
    (variants : List SVariant) (sf : String) :
    ((parse_enum ident attrs generics variants sf).map (·.representation)
      = some .untagged ↔ (parse_serde_container_attrs attrs).untagged = true)
    ∧ (∀ t ct, (parse_enum ident attrs generics variants sf).map (·.representation)
      = some (.adjacent t ct) ↔
        ((parse_serde_container_attrs attrs).untagged = false
          ∧ (parse_serde_container_attrs attrs).tag = some t
          ∧ (parse_serde_container_attrs attrs).content = some ct))
    ∧ (∀ t, (parse_enum ident attrs generics variants sf).map (·.representation)
      = some (.internal t) ↔
        ((parse_serde_container_attrs attrs).untagged = false
          ∧ (parse_serde_container_attrs attrs).tag = some t
          ∧ (parse_serde_container_attrs attrs).content = none))
    ∧ ((parse_enum ident attrs generics variants sf).map (·.representation)
      = some .external ↔
        ((parse_serde_container_attrs attrs).untagged = false
          ∧ (parse_serde_container_attrs attrs).tag = none)) := by
  rcases huntagged : (parse_serde_container_attrs attrs).untagged <;>
    rcases htag : (parse_serde_container_attrs attrs).tag with _ | t0 <;>
    rcases hcontent : (parse_serde_container_attrs attrs).content with _ | c0 <;>
    refine ⟨?_, fun t ct => ?_, fun t => ?_, ?_⟩ <;>
    simp [parse_enum, huntagged, htag, hcontent]

/-- C10 witness. -/
theorem c10_classified_by_last_segment_witness :
    parse_type_with_context (.pathTy [PathSeg.mk "std" .noArgs, PathSeg.mk "string" .noArgs,
        PathSeg.mk "String" .noArgs]) []
      = parse_type_with_context (.pathTy [PathSeg.mk "String" .noArgs]) []
    ∧ is_tauri_special_type (.pathTy [PathSeg.mk "tauri" .noArgs, PathSeg.mk "State"
        (.angleBracketed [.typeArg (.pathTy [PathSeg.mk "AppState" .noArgs])])])
      = is_tauri_special_type (.pathTy [PathSeg.mk "State"
        (.angleBracketed [.typeArg (.pathTy [PathSeg.mk "AppState" .noArgs])])]) :=
  ⟨c10_classified_by_last_segment.1 _ (PathSeg.mk "String" .noArgs) [] (by simp),
   c10_classified_by_last_segment.2.1 _ (PathSeg.mk "State"
      (.angleBracketed [.typeArg (.pathTy [PathSeg.mk "AppState" .noArgs])])) (by simp)⟩

end TauriGen

